import Mathlib

/-!
Tag listing service (`main.go`)

A shallow embedding of the HTTP handler that lists exiftool tag definitions:
the parsed catalog (`TagInfo`, `Table`, `Tag`), the projection `getTagData`,
the channel handoff between the handler and its encoding goroutine
(`handleTags`, `getTagDataSlice`) and the response the handler leaves behind.
-/

namespace TagService

/-! ## Data model (main.go, lines 14-35) -/

/-- The anonymous struct behind `Tag.Description`: the four language texts.
A language missing from the XML leaves its field at the zero value `""`. -/
structure TagDescription where
  EN : String
  DE : String
  ES : String
  IT : String
  deriving DecidableEq, Repr

/-- The struct `Tag`: every XML attribute is kept as a string. The field
`Type` is spelled `Typ`, `Type` being a reserved word. -/
structure Tag where
  ID : String
  Name : String
  Typ : String
  Writable : String
  Description : TagDescription
  deriving DecidableEq, Repr

/-- The struct `Table`. -/
structure Table where
  Name : String
  Tags : List Tag
  deriving DecidableEq, Repr

/-- The struct `TagInfo` (the field `XMLName` carries no data of the catalog). -/
structure TagInfo where
  Tables : List Table
  deriving DecidableEq, Repr

/-! ## Go values held in a `map[string]interface{}` -/

/-- The dynamic values `getTagData` stores behind `interface{}`: a `bool`, a
`string`, or a `map[string]string`. A map is kept as its list of bindings, in
the order of the map literal. -/
inductive GoVal where
  | bool (b : Bool)
  | str (s : String)
  | strMap (m : List (String × String))
  deriving DecidableEq, Repr

/-- A `map[string]interface{}` as its list of bindings. -/
abbrev TagData := List (String × GoVal)

/-- The keys of a map. -/
def keys {β : Type} (m : List (String × β)) : List String :=
  m.map Prod.fst

/-- Indexing a map, `m[k]`: the value bound to `k`, if the key is present. -/
def get? {β : Type} (m : List (String × β)) (k : String) : Option β :=
  (m.find? fun kv => kv.1 == k).map Prod.snd

/-! ## `getTagData` (main.go, lines 63-81) -/

/-- The call `fmt.Sprintf("%s:%s", a, b)` on two strings. -/
def sprintfColon (a b : String) : String :=
  a ++ ":" ++ b

/-- The function `getTagData`. -/
def getTagData (tag : Tag) (tableName : String) : TagData :=
  let tagPath := sprintfColon tableName tag.Name
  let tagDescription : List (String × String) := [
    ("en", tag.Description.EN),
    ("de", tag.Description.DE),
    ("es", tag.Description.ES),
    ("it", tag.Description.IT)
  ]
  let tagData : TagData := [
    ("writable", GoVal.bool (tag.Writable == "true")),
    ("path", GoVal.str tagPath),
    ("group", GoVal.str tableName),
    ("description", GoVal.strMap tagDescription),
    ("type", GoVal.str tag.Typ)
  ]
  tagData

/-! ## Slices and channels -/

/-- A Go slice value: the `nil` slice, or a non-nil slice with its elements. -/
inductive Slice (α : Type) where
  | nil
  | mk (elems : List α)
  deriving DecidableEq, Repr

/-- The built-in `append(s, x)`: appending to the `nil` slice allocates. -/
def Slice.append {α : Type} : Slice α → α → Slice α
  | Slice.nil, x => Slice.mk [x]
  | Slice.mk l, x => Slice.mk (l ++ [x])

/-- The elements of a slice, in index order. -/
def Slice.toList {α : Type} : Slice α → List α
  | Slice.nil => []
  | Slice.mk l => l

/-- The built-in `len(s)`; the `nil` slice has length 0. -/
def Slice.len {α : Type} (s : Slice α) : Nat :=
  s.toList.length

/-- A buffered channel: the queued values (oldest first), the capacity given
to `make`, and whether `close` has been called. -/
structure Chan (α : Type) where
  buf : List α
  cap : Nat
  closed : Bool
  deriving DecidableEq, Repr

/-- The call `make(chan T, size)`. -/
def Chan.make {α : Type} (size : Nat) : Chan α :=
  { buf := [], cap := size, closed := false }

/-- The statement `c <- x` on a buffered channel: the value joins the back of
the queue when the buffer has room; otherwise the sender blocks (`none`).
(A channel of capacity 0 would hand the value to a waiting receiver instead;
`handleTags` sends only on a channel whose capacity is the number of its
sends, so that case has no send at all.) -/
def Chan.send {α : Type} (c : Chan α) (x : α) : Option (Chan α) :=
  if c.buf.length < c.cap then some { c with buf := c.buf ++ [x] } else none

/-- The call `close(c)`. -/
def Chan.close {α : Type} (c : Chan α) : Chan α :=
  { c with closed := true }

/-- The outcome of one receive attempt of a `for x := range c` loop. -/
inductive Recv (α : Type) where
  | value (x : α) (c : Chan α)
  | finished
  | blocked

/-- One receive attempt of `for x := range c`: the oldest queued value if there
is one; the end of the loop when the queue is empty and the channel closed;
otherwise the receiver blocks. -/
def Chan.recv {α : Type} (c : Chan α) : Recv α :=
  match c.buf with
  | x :: rest => Recv.value x { c with buf := rest }
  | [] => if c.closed then Recv.finished else Recv.blocked

/-! ## The two goroutines of `handleTags` (main.go, lines 102-135) -/

/-- Where the handler's own goroutine stands after the channel is made:
at the head of the outer loop with the tables still to visit, at the head of
the inner loop with the current table's name and the tags still to send,
at `wg.Wait()` after `close(tagChan)`, or returned. -/
inductive Handler where
  | outer (tables : List Table)
  | inner (name : String) (tags : List Tag) (tables : List Table)
  | wait
  | returned
  deriving DecidableEq, Repr

/-- Where the encoding goroutine stands: inside the loop of `getTagDataSlice`
with the slice `tags` built so far, or past `encoder.Encode` and `wg.Done()`
with the slice `getTagDataSlice` returned. -/
inductive Encoder where
  | ranging (tags : Slice TagData)
  | done (tags : Slice TagData)
  deriving DecidableEq, Repr

/-- The state shared by the two goroutines. -/
structure State where
  tagChan : Chan TagData
  handler : Handler
  encoder : Encoder
  deriving DecidableEq, Repr

/-- The two goroutines a scheduler can pick. -/
inductive Goroutine where
  | handler
  | encoder
  deriving DecidableEq, Repr

/-- The loop of lines 102-105: `chanSize` is the sum of the tables' tag
counts. (An `int64` sum of lengths of slices held in memory does not wrap.) -/
def chanSize (tagInfo : TagInfo) : Nat :=
  tagInfo.Tables.foldl (fun size table => size + table.Tags.length) 0

/-- The state once the channel is made and the encoding goroutine started
(lines 106-115): empty channel of capacity `chanSize`, the handler about to
enter its outer loop, the encoder about to range with `tags` still `nil`. -/
def State.init (tagInfo : TagInfo) : State :=
  { tagChan := Chan.make (chanSize tagInfo)
    handler := Handler.outer tagInfo.Tables
    encoder := Encoder.ranging Slice.nil }

/-- One step of the handler's goroutine (lines 117-126). A send on a full
channel and a `wg.Wait()` before `wg.Done()` leave the state as it is. -/
def stepHandler (s : State) : State :=
  match s.handler with
  | Handler.outer [] => { s with tagChan := s.tagChan.close, handler := Handler.wait }
  | Handler.outer (table :: tables) =>
      { s with handler := Handler.inner table.Name table.Tags tables }
  | Handler.inner _ [] tables => { s with handler := Handler.outer tables }
  | Handler.inner name (tag :: tags) tables =>
      match s.tagChan.send (getTagData tag name) with
      | some c => { s with tagChan := c, handler := Handler.inner name tags tables }
      | none => s
  | Handler.wait =>
      match s.encoder with
      | Encoder.done _ => { s with handler := Handler.returned }
      | Encoder.ranging _ => s
  | Handler.returned => s

/-- One step of the encoding goroutine: one turn of the loop of
`getTagDataSlice` (lines 129-135), whose end hands the slice to the encoder. -/
def stepEncoder (s : State) : State :=
  match s.encoder with
  | Encoder.ranging tags =>
      match s.tagChan.recv with
      | Recv.value tagData c => { s with tagChan := c, encoder := Encoder.ranging (tags.append tagData) }
      | Recv.finished => { s with encoder := Encoder.done tags }
      | Recv.blocked => s
  | Encoder.done _ => s

/-- One step of the goroutine the scheduler picked. -/
def step (s : State) : Goroutine → State
  | Goroutine.handler => stepHandler s
  | Goroutine.encoder => stepEncoder s

/-- The state after the scheduler's picks `sched`, taken in order. -/
def run (sched : List Goroutine) (s : State) : State :=
  sched.foldl step s

/-- The slice `getTagDataSlice` returned, once the handler is back from
`wg.Wait()`; `none` while the handler has not returned. -/
def State.result (s : State) : Option (Slice TagData) :=
  match s.handler, s.encoder with
  | Handler.returned, Encoder.done tags => some tags
  | _, _ => none

/-- The slice `getTagDataSlice` collects for a catalog under a schedule. -/
def collected (tagInfo : TagInfo) (sched : List Goroutine) : Option (Slice TagData) :=
  (run sched (State.init tagInfo)).result

/-! ## JSON documents and the response -/

/-- JSON values. An object lists its members; their order carries no meaning. -/
inductive JSON where
  | null
  | bool (b : Bool)
  | str (s : String)
  | arr (items : List JSON)
  | obj (members : List (String × JSON))

/-- How `encoding/json` encodes the values of `GoVal`. -/
def GoVal.toJSON : GoVal → JSON
  | GoVal.bool b => JSON.bool b
  | GoVal.str s => JSON.str s
  | GoVal.strMap m => JSON.obj (m.map fun kv => (kv.1, JSON.str kv.2))

/-- How `encoding/json` encodes a `map[string]interface{}`. -/
def TagData.toJSON (m : TagData) : JSON :=
  JSON.obj (m.map fun kv => (kv.1, kv.2.toJSON))

/-- How `encoding/json` encodes a `[]map[string]interface{}`: a JSON array,
except that the `nil` slice encodes as the JSON value `null`. -/
def Slice.toJSON : Slice TagData → JSON
  | Slice.nil => JSON.null
  | Slice.mk l => JSON.arr (l.map TagData.toJSON)

/-- The body the handler leaves: none yet, the text line `http.Error` prints,
or the document `encoder.Encode` writes. -/
inductive Body where
  | empty
  | text (msg : String)
  | json (doc : JSON)

/-- What the client gets: status code, the headers set, the body. -/
structure Response where
  status : Nat
  header : List (String × String)
  body : Body

/-- The constant `http.StatusInternalServerError`. -/
def StatusInternalServerError : Nat := 500

/-- The constant `http.StatusOK`, the status of a response whose body is
written without a call of `WriteHeader`. -/
def StatusOK : Nat := 200

/-- The call `http.Error(w, msg, code)`: a plain-text reply with the status
`code` whose body is the line `msg`. -/
def httpError (msg : String) (code : Nat) : Response :=
  { status := code
    header := [("Content-Type", "text/plain; charset=utf-8"), ("X-Content-Type-Options", "nosniff")]
    body := Body.text msg }

/-- The function `getExifTags` (lines 47-61): `output` is what `cmd.Output()`
gave for `exiftool -listx` (an error when the tool could not run, exited
non-zero or was killed), `unmarshal` is `xml.Unmarshal` into a `TagInfo`. -/
def getExifTags {ε Bytes : Type} (output : Except ε Bytes)
    (unmarshal : Bytes → Except ε TagInfo) : Except ε TagInfo :=
  match output with
  | Except.error err => Except.error err
  | Except.ok out =>
      match unmarshal out with
      | Except.error err => Except.error err
      | Except.ok tagInfo => Except.ok tagInfo

/-- The function `handleTags` (lines 83-127). `output` and `unmarshal` are
what `getExifTags` meets (line 93); on its error the reply is that of line 95;
otherwise the reply carries the JSON header of line 99 and the document of
line 112, once the two goroutines have run to the handler's return under the
scheduling `sched`. `none` while the handler has not returned. -/
def handleTags {ε Bytes : Type} (output : Except ε Bytes)
    (unmarshal : Bytes → Except ε TagInfo) (sched : List Goroutine) : Option Response :=
  match getExifTags output unmarshal with
  | Except.error _ => some (httpError "Error while getting tags" StatusInternalServerError)
  | Except.ok tagInfo =>
      match collected tagInfo sched with
      | some tags =>
          some { status := StatusOK
                 header := [("Content-Type", "application/json")]
                 body := Body.json (JSON.obj [("tags", tags.toJSON)]) }
      | none => none

/-! ## Reference sequences and the invariant of the handoff -/

/-- The records of a list of tables in table-then-tag order: for each table in
order, `getTagData tag table.Name` for its tags in order. -/
def tablesData (tables : List Table) : List TagData :=
  tables.flatMap fun table => table.Tags.map fun tag => getTagData tag table.Name

/-- The records of a catalog in table-then-tag source order. -/
def projected (tagInfo : TagInfo) : List TagData :=
  tablesData tagInfo.Tables

/-- The number of tags of a catalog, summed over its tables. -/
def totalTags (tagInfo : TagInfo) : Nat :=
  (tagInfo.Tables.map fun table => table.Tags.length).sum

/-- The slice that appending the elements of a list one by one to the `nil`
slice gives: `nil` itself when there is nothing to append. -/
def Slice.ofList {α : Type} : List α → Slice α
  | [] => Slice.nil
  | x :: xs => Slice.mk (x :: xs)

/-- The records the handler has still to send. -/
def Handler.pending : Handler → List TagData
  | Handler.outer tables => tablesData tables
  | Handler.inner name tags tables => (tags.map fun tag => getTagData tag name) ++ tablesData tables
  | Handler.wait => []
  | Handler.returned => []

/-- The slice the encoding goroutine holds. -/
def Encoder.tags : Encoder → Slice TagData
  | Encoder.ranging tags => tags
  | Encoder.done tags => tags

/-- Whether the encoding goroutine is past its loop. -/
def Encoder.isDone : Encoder → Bool
  | Encoder.ranging _ => false
  | Encoder.done _ => true

/-- Whether the handler is past `close(tagChan)`. -/
def Handler.hasClosed : Handler → Bool
  | Handler.wait => true
  | Handler.returned => true
  | _ => false

/-- The steps the handler still takes up to and including `close(tagChan)`. -/
def Handler.stepsLeft : Handler → Nat
  | Handler.outer tables => (tables.map fun table => table.Tags.length + 2).sum + 1
  | Handler.inner _ tags tables =>
      tags.length + 1 + ((tables.map fun table => table.Tags.length + 2).sum + 1)
  | Handler.wait => 0
  | Handler.returned => 0

/-- A bound on the steps left until the handler returns, when at every state
the scheduler picks `State.next`. -/
def State.work (s : State) : Nat :=
  2 * s.handler.stepsLeft + s.tagChan.buf.length
    + (if s.encoder.isDone then 0 else 1) + (if s.handler = Handler.returned then 0 else 1)

/-- A goroutine that can move: the handler until it waits, then the encoder
until it is done, then the handler again. -/
def State.next (s : State) : Goroutine :=
  match s.handler, s.encoder with
  | Handler.wait, Encoder.ranging _ => Goroutine.encoder
  | _, _ => Goroutine.handler

/-- The invariant of the handoff for the catalog `tagInfo`: what was collected,
what is queued and what is still to send make up the catalog's records in
order; the capacity is their number; the collected slice is `nil` exactly
while empty; the channel is closed exactly once the handler is past its loops;
the encoder is done only on a closed, drained channel; the handler returns
only after the encoder is done. -/
structure Inv (tagInfo : TagInfo) (s : State) : Prop where
  order : s.encoder.tags.toList ++ s.tagChan.buf ++ s.handler.pending = projected tagInfo
  cap : s.tagChan.cap = (projected tagInfo).length
  slice : s.encoder.tags = Slice.ofList s.encoder.tags.toList
  closed : s.tagChan.closed = s.handler.hasClosed
  drained : s.encoder.isDone = true → s.tagChan.closed = true ∧ s.tagChan.buf = []
  joined : s.handler = Handler.returned → s.encoder.isDone = true

/-! ## A small catalog for concrete runs -/

/-- The tag `Make` of the sample catalog, writable. -/
def sampleMake : Tag :=
  { ID := "271", Name := "Make", Typ := "string", Writable := "true"
    Description := { EN := "Make", DE := "Hersteller", ES := "Fabricante", IT := "Produttore" } }

/-- The tag `Model` of the sample catalog, not writable, without German text. -/
def sampleModel : Tag :=
  { ID := "272", Name := "Model", Typ := "string", Writable := "false"
    Description := { EN := "Camera Model Name", DE := "", ES := "Modelo", IT := "Modello" } }

/-- The tag `Title` of the sample catalog, without a `writable` attribute. -/
def sampleTitle : Tag :=
  { ID := "title", Name := "Title", Typ := "lang-alt", Writable := ""
    Description := { EN := "Title", DE := "Titel", ES := "", IT := "" } }

/-- A catalog of three tables, the middle one without tags. -/
def sampleCatalog : TagInfo :=
  { Tables := [
      { Name := "Exif::Main", Tags := [sampleMake, sampleModel] },
      { Name := "JPEG::Main", Tags := [] },
      { Name := "XMP::dc", Tags := [sampleTitle] } ] }

/-- The bytes of a listing, as far as the sample runs look at them. -/
def sampleOutput : Except String String :=
  Except.ok "<taginfo>...</taginfo>"

/-- An `xml.Unmarshal` that reads the sample catalog out of the listing. -/
def sampleUnmarshal : String → Except String TagInfo :=
  fun _ => Except.ok sampleCatalog

/-- A scheduling in which the encoder receives while the handler still sends,
blocks once on the empty channel, and the handler waits once in vain. -/
def sampleInterleaved : List Goroutine :=
  [ Goroutine.handler, Goroutine.handler, Goroutine.encoder, Goroutine.encoder,
    Goroutine.handler, Goroutine.handler, Goroutine.handler, Goroutine.handler,
    Goroutine.handler, Goroutine.encoder, Goroutine.handler, Goroutine.handler,
    Goroutine.handler, Goroutine.handler, Goroutine.encoder, Goroutine.encoder,
    Goroutine.handler ]

/-- A scheduling in which the handler sends everything and closes the channel
before the encoder takes its first step. -/
def sampleSequential : List Goroutine :=
  List.replicate 10 Goroutine.handler ++ List.replicate 4 Goroutine.encoder
    ++ [Goroutine.handler]

/-! ## Lemmas on slices and sums -/

theorem Slice.toList_append {α : Type} (s : Slice α) (x : α) :
    (s.append x).toList = s.toList ++ [x] := by
  cases s <;> rfl

theorem Slice.toList_ofList {α : Type} (l : List α) : (Slice.ofList l).toList = l := by
  cases l <;> rfl

theorem Slice.append_eq_ofList {α : Type} (s : Slice α) (x : α) :
    s.append x = Slice.ofList ((s.append x).toList) := by
  cases s with
  | nil => rfl
  | mk l => cases l <;> rfl

theorem tablesData_cons (table : Table) (tables : List Table) :
    tablesData (table :: tables)
      = (table.Tags.map fun tag => getTagData tag table.Name) ++ tablesData tables := by
  simp [tablesData]

theorem length_tablesData (tables : List Table) :
    (tablesData tables).length = (tables.map fun table => table.Tags.length).sum := by
  induction tables with
  | nil => rfl
  | cons table tables ih => simp [tablesData_cons, ih]

theorem foldl_add_length (tables : List Table) (n : Nat) :
    tables.foldl (fun size table => size + table.Tags.length) n
      = n + (tables.map fun table => table.Tags.length).sum := by
  induction tables generalizing n with
  | nil => simp
  | cons table tables ih => simp [ih, Nat.add_assoc]

theorem chanSize_eq_totalTags (tagInfo : TagInfo) : chanSize tagInfo = totalTags tagInfo := by
  simp [chanSize, totalTags, foldl_add_length]

theorem length_projected (tagInfo : TagInfo) : (projected tagInfo).length = totalTags tagInfo := by
  simp [projected, totalTags, length_tablesData]

/-! ## The invariant holds along every schedule -/

theorem inv_init (tagInfo : TagInfo) : Inv tagInfo (State.init tagInfo) where
  order := by simp [State.init, Encoder.tags, Slice.toList, Chan.make, Handler.pending, projected]
  cap := by simp [State.init, Chan.make, chanSize_eq_totalTags, length_projected]
  slice := rfl
  closed := rfl
  drained := by simp [State.init, Encoder.isDone]
  joined := by simp [State.init]


theorem send_of_inv {tagInfo : TagInfo} {s : State} (h : Inv tagInfo s)
    {name : String} {tag : Tag} {tags : List Tag} {tables : List Table}
    (hh : s.handler = Handler.inner name (tag :: tags) tables) (x : TagData) :
    s.tagChan.send x = some { s.tagChan with buf := s.tagChan.buf ++ [x] } := by
  have hlen := congrArg List.length h.order
  rw [← h.cap, hh] at hlen
  simp only [Handler.pending, List.length_append, List.map_cons, List.length_cons] at hlen
  have hlt : s.tagChan.buf.length < s.tagChan.cap := by omega
  simp [Chan.send, hlt]

theorem inv_stepHandler {tagInfo : TagInfo} {s : State} (h : Inv tagInfo s) :
    Inv tagInfo (stepHandler s) := by
  have hsend := @send_of_inv tagInfo s h
  obtain ⟨tagChan, handler, encoder⟩ := s
  obtain ⟨ho, hc, hs, hcl, hd, hj⟩ := h
  dsimp only at ho hc hs hcl hd hj
  cases handler with
  | outer tables =>
    clear hsend
    cases tables with
    | nil =>
      simp only [Handler.hasClosed] at hcl
      constructor
      · simpa [stepHandler, Chan.close, Handler.pending, tablesData] using ho
      · exact hc
      · exact hs
      · rfl
      · intro hdone
        have := (hd hdone).1
        rw [hcl] at this
        exact absurd this (by decide)
      · intro hr
        exact absurd hr (by simp [stepHandler])
    | cons table tables =>
      constructor
      · simpa [stepHandler, Handler.pending, tablesData_cons] using ho
      · exact hc
      · exact hs
      · exact hcl
      · exact hd
      · intro hr
        exact absurd hr (by simp [stepHandler])
  | inner name tags tables =>
    cases tags with
    | nil =>
      clear hsend
      constructor
      · simpa [stepHandler, Handler.pending] using ho
      · exact hc
      · exact hs
      · exact hcl
      · exact hd
      · intro hr
        exact absurd hr (by simp [stepHandler])
    | cons tag tags =>
      have hsend := hsend rfl (getTagData tag name)
      dsimp only at hsend
      simp only [stepHandler, hsend]
      simp only [Handler.hasClosed] at hcl
      constructor
      · simpa [Handler.pending] using ho
      · exact hc
      · exact hs
      · exact hcl
      · intro hdone
        have := (hd hdone).1
        rw [hcl] at this
        exact absurd this (by decide)
      · intro hr
        exact absurd hr (by simp)
  | wait =>
    cases encoder with
    | ranging tags => exact ⟨ho, hc, hs, hcl, hd, hj⟩
    | done tags =>
      constructor
      · simpa [stepHandler, Handler.pending] using ho
      · exact hc
      · exact hs
      · exact hcl
      · exact hd
      · intro _
        rfl
  | returned => exact ⟨ho, hc, hs, hcl, hd, hj⟩

theorem inv_stepEncoder {tagInfo : TagInfo} {s : State} (h : Inv tagInfo s) :
    Inv tagInfo (stepEncoder s) := by
  obtain ⟨tagChan, handler, encoder⟩ := s
  obtain ⟨buf, cap, closed⟩ := tagChan
  obtain ⟨ho, hc, hs, hcl, hd, hj⟩ := h
  cases encoder with
  | done tags => exact ⟨ho, hc, hs, hcl, hd, hj⟩
  | ranging tags =>
    cases buf with
    | cons x rest =>
      simp only [stepEncoder, Chan.recv]
      constructor
      · simpa [Encoder.tags, Slice.toList_append] using ho
      · exact hc
      · exact Slice.append_eq_ofList tags x
      · exact hcl
      · simp [Encoder.isDone]
      · intro hr
        have := hj hr
        simp [Encoder.isDone] at this
    | nil =>
      cases closed with
      | false => exact ⟨ho, hc, hs, hcl, hd, hj⟩
      | true =>
        simp only [stepEncoder, Chan.recv]
        constructor
        · exact ho
        · exact hc
        · exact hs
        · exact hcl
        · simp
        · simp [Encoder.isDone]

theorem inv_step {tagInfo : TagInfo} {s : State} (h : Inv tagInfo s) (g : Goroutine) :
    Inv tagInfo (step s g) := by
  cases g
  · exact inv_stepHandler h
  · exact inv_stepEncoder h

theorem inv_run {tagInfo : TagInfo} (sched : List Goroutine) {s : State} (h : Inv tagInfo s) :
    Inv tagInfo (run sched s) := by
  induction sched generalizing s with
  | nil => exact h
  | cons g sched ih => exact ih (inv_step h g)

theorem run_append (sched ext : List Goroutine) (s : State) :
    run (sched ++ ext) s = run ext (run sched s) := by
  simp [run]

/-- Under the invariant, a returned handler has collected the catalog's
records in order, in a slice that is `nil` exactly when there are none. -/
theorem result_of_inv {tagInfo : TagInfo} {s : State} (h : Inv tagInfo s)
    {tags : Slice TagData} (hr : s.result = some tags) :
    tags = Slice.ofList (projected tagInfo) := by
  obtain ⟨tagChan, handler, encoder⟩ := s
  obtain ⟨ho, hc, hs, hcl, hd, hj⟩ := h
  cases handler <;> cases encoder <;> simp [State.result] at hr
  subst hr
  have hbuf := (hd rfl).2
  simp only [Encoder.tags] at hs ho
  dsimp only at hbuf
  simp only [hbuf, Handler.pending, List.append_nil] at ho
  rw [← ho]
  exact hs

/-- Under the invariant, the goroutine `State.next` picks moves: the bound
`State.work` goes down while the handler has not returned. -/
theorem work_step_next {tagInfo : TagInfo} {s : State} (h : Inv tagInfo s)
    (hr : s.handler ≠ Handler.returned) : (step s s.next).work < s.work := by
  have hsend := @send_of_inv tagInfo s h
  obtain ⟨tagChan, handler, encoder⟩ := s
  obtain ⟨buf, cap, closed⟩ := tagChan
  obtain ⟨ho, hc, hs, hcl, hd, hj⟩ := h
  cases handler with
  | outer tables =>
    cases tables with
    | nil => cases encoder <;> simp [State.next, step, stepHandler, State.work, Handler.stepsLeft, Chan.close]
    | cons table tables =>
      cases encoder <;> simp [State.next, step, stepHandler, State.work, Handler.stepsLeft] <;> omega
  | inner name tags tables =>
    cases tags with
    | nil => cases encoder <;> simp [State.next, step, stepHandler, State.work, Handler.stepsLeft]
    | cons tag tags =>
      have hsend := hsend rfl (getTagData tag name)
      cases encoder <;> simp [State.next, step, stepHandler, hsend, State.work, Handler.stepsLeft] <;> omega
  | wait =>
    cases encoder with
    | done tags => simp [State.next, step, stepHandler, State.work, Handler.stepsLeft]
    | ranging tags =>
      have hclosed : closed = true := by simpa [Handler.hasClosed] using hcl
      subst hclosed
      cases buf with
      | nil => simp [State.next, step, stepEncoder, Chan.recv, State.work, Encoder.isDone]
      | cons x rest => simp [State.next, step, stepEncoder, Chan.recv, State.work, Encoder.isDone]
  | returned => exact absurd rfl hr

/-- No deadlock: from every state that satisfies the invariant, some further
scheduling brings the handler to its return. -/
theorem exists_run_returned {tagInfo : TagInfo} (n : Nat) :
    ∀ s : State, Inv tagInfo s → s.work ≤ n →
      ∃ ext : List Goroutine, (run ext s).handler = Handler.returned := by
  induction n with
  | zero =>
    intro s _ hw
    by_cases hr : s.handler = Handler.returned
    · exact ⟨[], hr⟩
    · simp [State.work, hr] at hw
  | succ n ih =>
    intro s h hw
    by_cases hr : s.handler = Handler.returned
    · exact ⟨[], hr⟩
    · have hlt := work_step_next h hr
      obtain ⟨ext, hext⟩ := ih (step s s.next) (inv_step h s.next) (by omega)
      exact ⟨s.next :: ext, hext⟩

theorem result_isSome_of_returned {tagInfo : TagInfo} {s : State} (h : Inv tagInfo s)
    (hr : s.handler = Handler.returned) : s.result = some (Slice.ofList (projected tagInfo)) := by
  have hdone := h.joined hr
  obtain ⟨tagChan, handler, encoder⟩ := s
  cases encoder with
  | ranging tags => simp [Encoder.isDone] at hdone
  | done tags =>
    simp only at hr
    subst hr
    have : State.result ⟨tagChan, Handler.returned, Encoder.done tags⟩ = some tags := rfl
    rw [this, result_of_inv h this]

/-- Whatever the scheduler did so far, it can go on so that `getTagDataSlice`
returns, and what it returns is then the catalog's records in order. -/
theorem collected_extend (tagInfo : TagInfo) (sched : List Goroutine) :
    ∃ ext : List Goroutine,
      collected tagInfo (sched ++ ext) = some (Slice.ofList (projected tagInfo)) := by
  have h := inv_run sched (inv_init tagInfo)
  obtain ⟨ext, hext⟩ := exists_run_returned _ _ h (Nat.le_refl _)
  refine ⟨ext, ?_⟩
  unfold collected
  rw [run_append]
  exact result_isSome_of_returned (inv_run ext h) hext

/-- Every schedule under which `getTagDataSlice` returns gives the same slice:
the catalog's records in order. -/
theorem collected_eq (tagInfo : TagInfo) (sched : List Goroutine) (tags : Slice TagData)
    (h : collected tagInfo sched = some tags) : tags = Slice.ofList (projected tagInfo) :=
  result_of_inv (inv_run sched (inv_init tagInfo)) h

/-! ## Lemmas on paths -/

theorem sprintfColon_data (a b : String) :
    (sprintfColon a b).data = a.data ++ ':' :: b.data := by
  simp [sprintfColon, String.data_append]

theorem get?_path (tag : Tag) (tableName : String) :
    get? (getTagData tag tableName) "path" = some (GoVal.str (sprintfColon tableName tag.Name)) := by
  simp [get?, getTagData, List.find?]

/-- A list is split in one way only at the last occurrence of an element. -/
theorem split_last_unique {c : Char} {a b x y : List Char}
    (h : a ++ c :: x = b ++ c :: y) (hx : c ∉ x) (hy : c ∉ y) : a = b ∧ x = y := by
  rcases List.append_eq_append_iff.mp h with ⟨m, hb, hm⟩ | ⟨m, ha, hm⟩
  · cases m with
    | nil =>
      simp only [List.nil_append, List.cons.injEq, true_and] at hm
      simp [hb, hm]
    | cons d m =>
      simp only [List.cons_append, List.cons.injEq] at hm
      exact absurd (by rw [hm.2]; simp) hx
  · cases m with
    | nil =>
      simp only [List.nil_append, List.cons.injEq, true_and] at hm
      simp [ha, hm]
    | cons d m =>
      simp only [List.cons_append, List.cons.injEq] at hm
      exact absurd (by rw [hm.2]; simp) hy

theorem sprintfColon_right_inj {a x y : String} (h : sprintfColon a x = sprintfColon a y) :
    x = y := by
  have hd := congrArg String.data h
  simp only [sprintfColon_data] at hd
  have := List.append_cancel_left hd
  simp only [List.cons.injEq, true_and] at this
  exact String.ext this

/-! ## `handleTags` after `getExifTags` -/

theorem handleTags_of_error {ε Bytes : Type} {output : Except ε Bytes}
    {unmarshal : Bytes → Except ε TagInfo} {err : ε}
    (h : getExifTags output unmarshal = Except.error err) (sched : List Goroutine) :
    handleTags output unmarshal sched
      = some (httpError "Error while getting tags" StatusInternalServerError) := by
  simp only [handleTags, h]

theorem handleTags_of_ok {ε Bytes : Type} {output : Except ε Bytes}
    {unmarshal : Bytes → Except ε TagInfo} {tagInfo : TagInfo}
    (h : getExifTags output unmarshal = Except.ok tagInfo) (sched : List Goroutine) :
    handleTags output unmarshal sched
      = (collected tagInfo sched).map fun tags =>
          { status := StatusOK
            header := [("Content-Type", "application/json")]
            body := Body.json (JSON.obj [("tags", tags.toJSON)]) } := by
  simp only [handleTags, h]
  cases collected tagInfo sched <;> rfl

/-- After a successful `getExifTags`, a reply of `handleTags` is the 200 reply
around the slice collected, which holds the catalog's records in order. -/
theorem handleTags_reply {ε Bytes : Type} {output : Except ε Bytes}
    {unmarshal : Bytes → Except ε TagInfo} {tagInfo : TagInfo}
    (h : getExifTags output unmarshal = Except.ok tagInfo) {sched : List Goroutine}
    {r : Response} (hr : handleTags output unmarshal sched = some r) :
    collected tagInfo sched = some (Slice.ofList (projected tagInfo)) ∧
      r = { status := StatusOK
            header := [("Content-Type", "application/json")]
            body := Body.json (JSON.obj [("tags", (Slice.ofList (projected tagInfo)).toJSON)]) } := by
  rw [handleTags_of_ok h] at hr
  cases hc : collected tagInfo sched with
  | none => simp [hc] at hr
  | some tags =>
    have htags := collected_eq tagInfo sched tags hc
    subst htags
    simp only [hc, Option.map_some', Option.some.injEq] at hr
    exact ⟨rfl, hr.symm⟩

/-- After a successful `getExifTags`, every scheduling can be continued so
that `handleTags` replies. -/
theorem handleTags_extend {ε Bytes : Type} {output : Except ε Bytes}
    {unmarshal : Bytes → Except ε TagInfo} {tagInfo : TagInfo}
    (h : getExifTags output unmarshal = Except.ok tagInfo) (sched : List Goroutine) :
    ∃ (ext : List Goroutine) (r : Response),
      handleTags output unmarshal (sched ++ ext) = some r := by
  obtain ⟨ext, hext⟩ := collected_extend tagInfo sched
  exact ⟨ext, _, by rw [handleTags_of_ok h, hext]; rfl⟩

/-! ## The claims -/

/-- C1: for every successfully parsed catalog with N tags in total over its
tables, the slice `getTagDataSlice` collects and `handleTags` encodes under
the key `"tags"` has exactly N entries, one for every tag of every table: its
elements are, position by position, the records `getTagData tag table.Name`
of the catalog's tags, so none is dropped and none is duplicated (every record
occurs in the slice as often as among the catalog's tags); this under every
scheduling of the two goroutines, and every scheduling can be continued to the
handler's return, so the document is produced. -/
theorem handleTags_one_record_per_tag (ε Bytes : Type) (output : Except ε Bytes)
    (unmarshal : Bytes → Except ε TagInfo) (tagInfo : TagInfo)
    (hparsed : getExifTags output unmarshal = Except.ok tagInfo) :
    (∀ (sched : List Goroutine) (r : Response),
        handleTags output unmarshal sched = some r →
        ∃ tags : Slice TagData,
          collected tagInfo sched = some tags ∧
          r.body = Body.json (JSON.obj [("tags", tags.toJSON)]) ∧
          tags.len = totalTags tagInfo ∧
          tags.toList = tagInfo.Tables.flatMap (fun table =>
            table.Tags.map fun tag => getTagData tag table.Name) ∧
          (∀ record : TagData, tags.toList.count record
            = (tagInfo.Tables.flatMap fun table =>
                table.Tags.map fun tag => getTagData tag table.Name).count record) ∧
          ∀ table ∈ tagInfo.Tables, ∀ tag ∈ table.Tags,
            getTagData tag table.Name ∈ tags.toList) ∧
    (∀ sched : List Goroutine, ∃ (ext : List Goroutine) (r : Response),
        handleTags output unmarshal (sched ++ ext) = some r) := by
  refine ⟨?_, handleTags_extend hparsed⟩
  intro sched r h
  obtain ⟨hc, hr⟩ := handleTags_reply hparsed h
  have hl : (Slice.ofList (projected tagInfo)).toList
      = tagInfo.Tables.flatMap (fun table =>
          table.Tags.map fun tag => getTagData tag table.Name) := by
    rw [Slice.toList_ofList]
    rfl
  refine ⟨_, hc, by rw [hr], ?_, hl, ?_, ?_⟩
  · rw [Slice.len, Slice.toList_ofList, length_projected]
  · intro record
    rw [hl]
  · intro table htable tag htag
    rw [hl]
    simp only [List.mem_flatMap, List.mem_map]
    exact ⟨table, htable, tag, htag, rfl⟩

/-- C2 (the code departs from the claim): for every successfully parsed
catalog without any tag (no table, or tables without tags), whenever
`handleTags` returns, the status is 200 and the document is the object whose
member `"tags"` is the JSON value `null`, the encoding of the `nil` slice that
`getTagDataSlice` returns when its loop never appends; it is not the empty
array. -/
theorem handleTags_no_tags_encodes_null (ε Bytes : Type) (output : Except ε Bytes)
    (unmarshal : Bytes → Except ε TagInfo) (tagInfo : TagInfo)
    (hparsed : getExifTags output unmarshal = Except.ok tagInfo)
    (h0 : totalTags tagInfo = 0) (sched : List Goroutine) (r : Response)
    (h : handleTags output unmarshal sched = some r) :
    r.status = 200 ∧ r.body = Body.json (JSON.obj [("tags", JSON.null)]) ∧
      r.body ≠ Body.json (JSON.obj [("tags", JSON.arr [])]) := by
  obtain ⟨_, hr⟩ := handleTags_reply hparsed h
  have hnil : projected tagInfo = [] := by
    apply List.eq_nil_of_length_eq_zero
    rw [length_projected, h0]
  rw [hnil] at hr
  subst hr
  simp [StatusOK, Slice.ofList, Slice.toJSON]

/-- C2, at concrete inputs: a catalog with no table and a catalog with one
table without tags, each run to the handler's return. -/
theorem handleTags_no_tags_encodes_null_witness :
    (∃ r : Response,
      handleTags sampleOutput (fun _ => Except.ok ⟨[]⟩)
        [Goroutine.handler, Goroutine.encoder, Goroutine.handler] = some r ∧
      r.status = 200 ∧ r.body = Body.json (JSON.obj [("tags", JSON.null)]) ∧
      r.body ≠ Body.json (JSON.obj [("tags", JSON.arr [])])) ∧
    (∃ r : Response,
      handleTags sampleOutput (fun _ => Except.ok ⟨[⟨"Exif::Main", []⟩]⟩)
        [Goroutine.handler, Goroutine.handler, Goroutine.handler, Goroutine.encoder,
          Goroutine.handler] = some r ∧
      r.status = 200 ∧ r.body = Body.json (JSON.obj [("tags", JSON.null)]) ∧
      r.body ≠ Body.json (JSON.obj [("tags", JSON.arr [])])) :=
  ⟨⟨_, rfl, handleTags_no_tags_encodes_null String String sampleOutput
      (fun _ => Except.ok ⟨[]⟩) ⟨[]⟩ rfl rfl
      [Goroutine.handler, Goroutine.encoder, Goroutine.handler] _ rfl⟩,
   ⟨_, rfl, handleTags_no_tags_encodes_null String String sampleOutput
      (fun _ => Except.ok ⟨[⟨"Exif::Main", []⟩]⟩) ⟨[⟨"Exif::Main", []⟩]⟩ rfl rfl
      [Goroutine.handler, Goroutine.handler, Goroutine.handler, Goroutine.encoder,
        Goroutine.handler] _ rfl⟩⟩

/-- C3: the `"writable"` value of `getTagData tag tableName` is the boolean
`true` if and only if `tag.Writable` is exactly the string `"true"`; every
other string gives `false`, among them `""`, `"false"`, `"1"`, `"True"` and
`" true"`. -/
theorem getTagData_writable_iff :
    (∀ (tag : Tag) (tableName : String),
      (get? (getTagData tag tableName) "writable" = some (GoVal.bool true)
        ↔ tag.Writable = "true")) ∧
    (∀ (tag : Tag) (tableName : String), tag.Writable ≠ "true" →
      get? (getTagData tag tableName) "writable" = some (GoVal.bool false)) ∧
    (∀ w ∈ ["", "false", "1", "True", " true", "TRUE", "true "],
      ∀ (tag : Tag) (tableName : String), tag.Writable = w →
        get? (getTagData tag tableName) "writable" = some (GoVal.bool false)) := by
  have key : ∀ (tag : Tag) (tableName : String),
      get? (getTagData tag tableName) "writable"
        = some (GoVal.bool (tag.Writable == "true")) := by
    intro tag tableName
    simp [get?, getTagData, List.find?]
  refine ⟨?_, ?_, ?_⟩
  · intro tag tableName
    rw [key]
    simp
  · intro tag tableName hne
    rw [key]
    simp [hne]
  · intro w hw tag tableName heq
    rw [key, heq]
    simp only [List.mem_cons, List.mem_singleton, List.not_mem_nil, or_false] at hw
    rcases hw with rfl | rfl | rfl | rfl | rfl | rfl | rfl <;> decide

/-- C4: `getTagData tag tableName` has exactly the five keys `writable`,
`path`, `group`, `description` and `type`, each once; `path` is `tableName`
followed by `":"` and `tag.Name`, `group` is `tableName`, `type` is
`tag.Type`; and the record is the same for two tags that agree on name, type,
writable flag and description, whatever else they were built from. -/
theorem getTagData_fields (tag : Tag) (tableName : String) :
    keys (getTagData tag tableName) = ["writable", "path", "group", "description", "type"] ∧
    (keys (getTagData tag tableName)).Nodup ∧
    (∀ k : String, (get? (getTagData tag tableName) k).isSome
      ↔ k ∈ ["path", "group", "writable", "type", "description"]) ∧
    get? (getTagData tag tableName) "path" = some (GoVal.str (tableName ++ ":" ++ tag.Name)) ∧
    get? (getTagData tag tableName) "group" = some (GoVal.str tableName) ∧
    get? (getTagData tag tableName) "type" = some (GoVal.str tag.Typ) ∧
    (∀ other : Tag, other.Name = tag.Name → other.Typ = tag.Typ →
      other.Writable = tag.Writable → other.Description = tag.Description →
      getTagData other tableName = getTagData tag tableName) := by
  refine ⟨rfl, by simp [keys, getTagData], ?_, ?_, ?_, ?_, ?_⟩
  · intro k
    simp only [get?, getTagData, List.find?, Option.isSome_map']
    by_cases h1 : "writable" = k
    · subst h1; simp
    by_cases h2 : "path" = k
    · subst h2; simp
    by_cases h3 : "group" = k
    · subst h3; simp
    by_cases h4 : "description" = k
    · subst h4; simp
    by_cases h5 : "type" = k
    · subst h5; simp
    have e1 : ¬ k = "writable" := fun h => h1 h.symm
    have e2 : ¬ k = "path" := fun h => h2 h.symm
    have e3 : ¬ k = "group" := fun h => h3 h.symm
    have e4 : ¬ k = "description" := fun h => h4 h.symm
    have e5 : ¬ k = "type" := fun h => h5 h.symm
    have b1 : ("writable" == k) = false := by simpa using h1
    have b2 : ("path" == k) = false := by simpa using h2
    have b3 : ("group" == k) = false := by simpa using h3
    have b4 : ("description" == k) = false := by simpa using h4
    have b5 : ("type" == k) = false := by simpa using h5
    simp [b1, b2, b3, b4, b5, e1, e2, e3, e4, e5]
  · exact get?_path tag tableName
  · simp [get?, getTagData, List.find?]
  · simp [get?, getTagData, List.find?]
  · intro other hn ht hw hd
    simp [getTagData, hn, ht, hw, hd]

/-- C5: the `"description"` value of `getTagData tag tableName` is a map with
exactly the four keys `en`, `de`, `es` and `it`, each once, bound to the
fields `EN`, `DE`, `ES` and `IT` of `tag.Description`; a language whose text
is empty is still present, bound to `""`, also in the encoded JSON object. -/
theorem getTagData_description (tag : Tag) (tableName : String) :
    ∃ d : List (String × String),
      get? (getTagData tag tableName) "description" = some (GoVal.strMap d) ∧
      keys d = ["en", "de", "es", "it"] ∧ (keys d).Nodup ∧
      get? d "en" = some tag.Description.EN ∧
      get? d "de" = some tag.Description.DE ∧
      get? d "es" = some tag.Description.ES ∧
      get? d "it" = some tag.Description.IT ∧
      (∀ k : String, (get? d k).isSome ↔ k ∈ ["en", "de", "es", "it"]) ∧
      (tag.Description.DE = "" → get? d "de" = some "" ∧
        (GoVal.strMap d).toJSON = JSON.obj [("en", JSON.str tag.Description.EN),
          ("de", JSON.str ""), ("es", JSON.str tag.Description.ES),
          ("it", JSON.str tag.Description.IT)]) := by
  refine ⟨[("en", tag.Description.EN), ("de", tag.Description.DE),
    ("es", tag.Description.ES), ("it", tag.Description.IT)], ?_, rfl, by simp [keys],
    ?_, ?_, ?_, ?_, ?_, ?_⟩
  · simp [get?, getTagData, List.find?]
  · simp [get?, List.find?]
  · simp [get?, List.find?]
  · simp [get?, List.find?]
  · simp [get?, List.find?]
  · intro k
    simp only [get?, List.find?, Option.isSome_map']
    by_cases h1 : "en" = k
    · subst h1; simp
    by_cases h2 : "de" = k
    · subst h2; simp
    by_cases h3 : "es" = k
    · subst h3; simp
    by_cases h4 : "it" = k
    · subst h4; simp
    have e1 : ¬ k = "en" := fun h => h1 h.symm
    have e2 : ¬ k = "de" := fun h => h2 h.symm
    have e3 : ¬ k = "es" := fun h => h3 h.symm
    have e4 : ¬ k = "it" := fun h => h4 h.symm
    have b1 : ("en" == k) = false := by simpa using h1
    have b2 : ("de" == k) = false := by simpa using h2
    have b3 : ("es" == k) = false := by simpa using h3
    have b4 : ("it" == k) = false := by simpa using h4
    simp [b1, b2, b3, b4, e1, e2, e3, e4]
  · intro hde
    simp [get?, List.find?, hde, GoVal.toJSON]

/-- C6 (the code departs from the claim at a catalog without tags):
`handleTags` answers with status 500 and the plain-text body
`Error while getting tags`, a text and no JSON document, exactly when
`getExifTags` returns an error, which it does when the tool fails and when its
output fails to parse alike; when `getExifTags` succeeds the answer has status
200, the header `Content-Type: application/json` and one document whose single
member `"tags"` holds the encoding of the collected slice: the array of the
records' encodings when the catalog has at least one tag, but the JSON value
`null`, and no array, when it has none. In the first case the handler returns
at once, in the second every scheduling can be continued to its return. -/
theorem handleTags_status (ε Bytes : Type) (output : Except ε Bytes)
    (unmarshal : Bytes → Except ε TagInfo) :
    (∀ (sched : List Goroutine) (r : Response),
      handleTags output unmarshal sched = some r →
        ((r.status = 500 ∧ r.body = Body.text "Error while getting tags")
          ↔ ∃ err, getExifTags output unmarshal = Except.error err)) ∧
    ((∃ err, getExifTags output unmarshal = Except.error err)
      ↔ ((∃ err, output = Except.error err)
          ∨ ∃ out err, output = Except.ok out ∧ unmarshal out = Except.error err)) ∧
    (∀ err, getExifTags output unmarshal = Except.error err →
      ∀ sched : List Goroutine, ∃ r : Response,
        handleTags output unmarshal sched = some r ∧
        r.status = 500 ∧ r.body = Body.text "Error while getting tags" ∧
        (∀ doc : JSON, r.body ≠ Body.json doc) ∧
        (("Content-Type", "application/json") ∉ r.header)) ∧
    (∀ tagInfo, getExifTags output unmarshal = Except.ok tagInfo →
      (∀ (sched : List Goroutine) (r : Response),
        handleTags output unmarshal sched = some r →
          r.status = 200 ∧ r.header = [("Content-Type", "application/json")] ∧
          ∃ tags : Slice TagData, collected tagInfo sched = some tags ∧
            r.body = Body.json (JSON.obj [("tags", tags.toJSON)]) ∧
            (0 < totalTags tagInfo →
              tags.toJSON = JSON.arr ((tagInfo.Tables.flatMap fun table =>
                table.Tags.map fun tag => getTagData tag table.Name).map TagData.toJSON)) ∧
            (totalTags tagInfo = 0 →
              tags.toJSON = JSON.null ∧
              ∀ items : List JSON,
                r.body ≠ Body.json (JSON.obj [("tags", JSON.arr items)]))) ∧
      (∀ sched : List Goroutine, ∃ (ext : List Goroutine) (r : Response),
        handleTags output unmarshal (sched ++ ext) = some r)) := by
  refine ⟨?_, ?_, ?_, ?_⟩
  · intro sched r h
    cases hx : getExifTags output unmarshal with
    | error err =>
      rw [handleTags_of_error hx, Option.some.injEq] at h
      subst h
      simp [httpError, StatusInternalServerError]
    | ok tagInfo =>
      obtain ⟨_, hr⟩ := handleTags_reply hx h
      subst hr
      simp [StatusOK]
  · cases output with
    | error err => simp [getExifTags]
    | ok out =>
      cases hu : unmarshal out with
      | error err => simp [getExifTags, hu]
      | ok tagInfo => simp [getExifTags, hu]
  · intro err hx sched
    refine ⟨httpError "Error while getting tags" StatusInternalServerError,
      handleTags_of_error hx sched, rfl, rfl, ?_, ?_⟩
    · intro doc
      simp [httpError]
    · simp [httpError]
  · intro tagInfo hx
    refine ⟨?_, handleTags_extend hx⟩
    intro sched r h
    obtain ⟨hc, hr⟩ := handleTags_reply hx h
    subst hr
    refine ⟨rfl, rfl, _, hc, rfl, ?_, ?_⟩
    · intro hpos
      rw [← length_projected] at hpos
      change (Slice.ofList (projected tagInfo)).toJSON
        = JSON.arr ((projected tagInfo).map TagData.toJSON)
      cases hp : projected tagInfo with
      | nil => simp [hp] at hpos
      | cons x xs => rfl
    · intro h0
      have hnil : projected tagInfo = [] := by
        apply List.eq_nil_of_length_eq_zero
        rw [length_projected, h0]
      rw [hnil]
      simp [Slice.ofList, Slice.toJSON]

/-- C7: for every successfully parsed catalog, the slice encoded under
`"tags"` is in table-then-tag source order under every scheduling of the two
goroutines: its elements are the concatenation, over the tables in catalog
order, of `getTagData tag table.Name` for the table's tags in their order;
when there is at least one tag the document's array lists their encodings in
that order; and every scheduling can be continued to the handler's return. -/
theorem handleTags_source_order (ε Bytes : Type) (output : Except ε Bytes)
    (unmarshal : Bytes → Except ε TagInfo) (tagInfo : TagInfo)
    (hparsed : getExifTags output unmarshal = Except.ok tagInfo) :
    (∀ (sched : List Goroutine) (r : Response),
        handleTags output unmarshal sched = some r →
        ∃ tags : Slice TagData,
          collected tagInfo sched = some tags ∧
          r.body = Body.json (JSON.obj [("tags", tags.toJSON)]) ∧
          tags.toList = tagInfo.Tables.flatMap (fun table =>
            table.Tags.map fun tag => getTagData tag table.Name) ∧
          (0 < totalTags tagInfo →
            tags.toJSON = JSON.arr ((tagInfo.Tables.flatMap fun table =>
              table.Tags.map fun tag => getTagData tag table.Name).map TagData.toJSON))) ∧
    (∀ sched : List Goroutine, ∃ (ext : List Goroutine) (r : Response),
        handleTags output unmarshal (sched ++ ext) = some r) := by
  refine ⟨?_, handleTags_extend hparsed⟩
  intro sched r h
  obtain ⟨hc, hr⟩ := handleTags_reply hparsed h
  refine ⟨_, hc, by rw [hr], ?_, ?_⟩
  · rw [Slice.toList_ofList]
    rfl
  · intro hpos
    rw [← length_projected] at hpos
    change (Slice.ofList (projected tagInfo)).toJSON
      = JSON.arr ((projected tagInfo).map TagData.toJSON)
    cases hp : projected tagInfo with
    | nil => simp [hp] at hpos
    | cons x xs => rfl

/-- C8: within one table the path is unique: two tags whose names differ get
different `"path"` values from `getTagData` under the same table name, so a
table whose tag names are pairwise distinct has pairwise distinct paths. -/
theorem getTagData_path_unique_in_table (tableName : String) :
    (∀ t1 t2 : Tag, t1.Name ≠ t2.Name →
      get? (getTagData t1 tableName) "path" ≠ get? (getTagData t2 tableName) "path") ∧
    (∀ tags : List Tag, (tags.map fun tag => tag.Name).Nodup →
      (tags.map fun tag => get? (getTagData tag tableName) "path").Nodup) := by
  have hinj : Function.Injective
      (fun name : String => some (GoVal.str (sprintfColon tableName name))) := by
    intro x y hxy
    simp only [Option.some.injEq, GoVal.str.injEq] at hxy
    exact sprintfColon_right_inj hxy
  constructor
  · intro t1 t2 hne heq
    rw [get?_path, get?_path] at heq
    exact hne (hinj heq)
  · intro tags hnodup
    have := hnodup.map hinj
    simpa [List.map_map, Function.comp_def, get?_path] using this

/-- C10: across tables the path determines its tag when tag names hold no
`':'`: for two (table name, tag) pairs with such tag names, equal `"path"`
values from `getTagData` force equal table names and equal tag names, whatever
the table names contain; without the condition this fails: table `A` with tag
`B:C` and table `A:B` with tag `C` both get the path `A:B:C`. -/
theorem getTagData_path_injective_without_colon :
    (∀ (tableName1 tableName2 : String) (t1 t2 : Tag),
      ':' ∉ t1.Name.data → ':' ∉ t2.Name.data →
      get? (getTagData t1 tableName1) "path" = get? (getTagData t2 tableName2) "path" →
      tableName1 = tableName2 ∧ t1.Name = t2.Name) ∧
    (get? (getTagData ⟨"", "B:C", "", "", ⟨"", "", "", ""⟩⟩ "A") "path"
        = some (GoVal.str "A:B:C") ∧
      get? (getTagData ⟨"", "C", "", "", ⟨"", "", "", ""⟩⟩ "A:B") "path"
        = some (GoVal.str "A:B:C") ∧
      "A" ≠ "A:B" ∧ "B:C" ≠ "C") := by
  constructor
  · intro tableName1 tableName2 t1 t2 h1 h2 heq
    rw [get?_path, get?_path] at heq
    simp only [Option.some.injEq, GoVal.str.injEq] at heq
    have hd := congrArg String.data heq
    simp only [sprintfColon_data] at hd
    obtain ⟨ha, hb⟩ := split_last_unique hd h1 h2
    exact ⟨String.ext ha, String.ext hb⟩
  · decide

/-- C9, as amended: when the tool is killed because the request was aborted,
so that `cmd.Output()` reports an error, `getExifTags` returns that error
without parsing anything and `handleTags`, which does not look at the context
again, answers as for every other failure: under every scheduling it returns
at once with status 500 and the plain-text body `Error while getting tags`
written to its `ResponseWriter`; the body is not empty, and no JSON document
is written. -/
theorem handleTags_killed_tool_reply (ε Bytes : Type) (output : Except ε Bytes)
    (unmarshal : Bytes → Except ε TagInfo) (err : ε)
    (hkilled : output = Except.error err) (sched : List Goroutine) :
    getExifTags output unmarshal = Except.error err ∧
    ∃ r : Response,
      handleTags output unmarshal sched = some r ∧
      r.status = 500 ∧ r.body = Body.text "Error while getting tags" ∧
      r.body ≠ Body.empty ∧ (∀ doc : JSON, r.body ≠ Body.json doc) := by
  subst hkilled
  have hx : getExifTags (Except.error err : Except ε Bytes) unmarshal = Except.error err := rfl
  refine ⟨hx, httpError "Error while getting tags" StatusInternalServerError,
    handleTags_of_error hx sched, rfl, rfl, ?_, ?_⟩
  · simp [httpError]
  · intro doc
    simp [httpError]

/-! ## The claims at concrete inputs -/

/-- C1 on the sample catalog under the interleaved scheduling: three tags,
three entries. -/
theorem handleTags_one_record_per_tag_witness :
    ∃ tags : Slice TagData,
      collected sampleCatalog sampleInterleaved = some tags ∧ tags.len = 3 ∧
      tags.toList = [getTagData sampleMake "Exif::Main", getTagData sampleModel "Exif::Main",
        getTagData sampleTitle "XMP::dc"] ∧
      getTagData sampleTitle "XMP::dc" ∈ tags.toList :=
  match (handleTags_one_record_per_tag String String sampleOutput sampleUnmarshal
      sampleCatalog rfl).1 sampleInterleaved
      ⟨StatusOK, [("Content-Type", "application/json")],
        Body.json (JSON.obj [("tags", (Slice.ofList (projected sampleCatalog)).toJSON)])⟩
      rfl with
  | ⟨tags, hc, _, hlen, hl, _, hmem⟩ =>
    ⟨tags, hc, hlen, hl,
      hmem ⟨"XMP::dc", [sampleTitle]⟩ (by decide) sampleTitle (by decide)⟩

/-- C3 on the sample tags: `Make` is writable, `Model` (`"false"`) and `Title`
(no attribute) are not. -/
theorem getTagData_writable_iff_witness :
    get? (getTagData sampleMake "Exif::Main") "writable" = some (GoVal.bool true) ∧
    get? (getTagData sampleModel "Exif::Main") "writable" = some (GoVal.bool false) ∧
    get? (getTagData sampleTitle "XMP::dc") "writable" = some (GoVal.bool false) :=
  ⟨(getTagData_writable_iff.1 sampleMake "Exif::Main").2 rfl,
   getTagData_writable_iff.2.1 sampleModel "Exif::Main" (by decide),
   getTagData_writable_iff.2.2 "" (by decide) sampleTitle "XMP::dc" rfl⟩

/-- C4 on the sample tag `Make`: the record is the same when only the tag's
identifier changes. -/
theorem getTagData_fields_witness :
    getTagData { sampleMake with ID := "0x010f" } "Exif::Main"
      = getTagData sampleMake "Exif::Main" :=
  (getTagData_fields sampleMake "Exif::Main").2.2.2.2.2.2
    { sampleMake with ID := "0x010f" } rfl rfl rfl rfl

/-- C5 on the sample tag `Model`, which has no German text: `de` is bound
to `""`. -/
theorem getTagData_description_witness :
    ∃ d : List (String × String),
      get? (getTagData sampleModel "Exif::Main") "description" = some (GoVal.strMap d) ∧
      get? d "de" = some "" :=
  match getTagData_description sampleModel "Exif::Main" with
  | ⟨d, hd, _, _, _, _, _, _, _, hde⟩ => ⟨d, hd, (hde rfl).1⟩

/-- C6 at the failing input, a listing that parses to a catalog without
tables: status 200 and the JSON header, but the document's member `"tags"` is
`null` and not an array; and at a failed tool run and a parse failure, status
500 at once. -/
theorem handleTags_status_witness :
    (∃ r : Response,
      handleTags sampleOutput (fun _ => Except.ok ⟨[]⟩)
        [Goroutine.handler, Goroutine.encoder, Goroutine.handler] = some r ∧
      r.status = 200 ∧ r.header = [("Content-Type", "application/json")] ∧
      r.body = Body.json (JSON.obj [("tags", JSON.null)]) ∧
      ∀ items : List JSON, r.body ≠ Body.json (JSON.obj [("tags", JSON.arr items)])) ∧
    (∃ r : Response,
      handleTags (Except.error "exit status 1" : Except String String) sampleUnmarshal []
        = some r ∧
      r.status = 500 ∧ r.body = Body.text "Error while getting tags") ∧
    (∃ r : Response,
      handleTags (Except.ok "<taginfo" : Except String String)
        (fun _ => Except.error "XML syntax error") [] = some r ∧
      r.status = 500 ∧ r.body = Body.text "Error while getting tags") :=
  ⟨match ((handleTags_status String String sampleOutput
        (fun _ => Except.ok ⟨[]⟩)).2.2.2 ⟨[]⟩ rfl).1
        [Goroutine.handler, Goroutine.encoder, Goroutine.handler]
        ⟨StatusOK, [("Content-Type", "application/json")],
          Body.json (JSON.obj [("tags", JSON.null)])⟩ rfl with
    | ⟨hs, hh, _, _, _, _, hnull⟩ => ⟨_, rfl, hs, hh, rfl, (hnull rfl).2⟩,
   match (handleTags_status String String (Except.error "exit status 1")
        sampleUnmarshal).2.2.1 "exit status 1" rfl [] with
    | ⟨r, hr, hs, hb, _, _⟩ => ⟨r, hr, hs, hb⟩,
   match (handleTags_status String String (Except.ok "<taginfo")
        (fun _ => Except.error "XML syntax error")).2.2.1 "XML syntax error" rfl [] with
    | ⟨r, hr, hs, hb, _, _⟩ => ⟨r, hr, hs, hb⟩⟩

/-- C7 on the sample catalog under the sequential scheduling: the three
records in table-then-tag order. -/
theorem handleTags_source_order_witness :
    ∃ tags : Slice TagData,
      collected sampleCatalog sampleSequential = some tags ∧
      tags.toList = [getTagData sampleMake "Exif::Main", getTagData sampleModel "Exif::Main",
        getTagData sampleTitle "XMP::dc"] :=
  match (handleTags_source_order String String sampleOutput sampleUnmarshal
      sampleCatalog rfl).1 sampleSequential
      ⟨StatusOK, [("Content-Type", "application/json")],
        Body.json (JSON.obj [("tags", (Slice.ofList (projected sampleCatalog)).toJSON)])⟩
      rfl with
  | ⟨tags, hc, _, hl, _⟩ => ⟨tags, hc, hl⟩

/-- C8 on the first table of the sample catalog: `Make` and `Model` get
different paths, and the table's paths are pairwise distinct. -/
theorem getTagData_path_unique_in_table_witness :
    get? (getTagData sampleMake "Exif::Main") "path"
      ≠ get? (getTagData sampleModel "Exif::Main") "path" ∧
    ([sampleMake, sampleModel].map fun tag => get? (getTagData tag "Exif::Main") "path").Nodup :=
  ⟨(getTagData_path_unique_in_table "Exif::Main").1 sampleMake sampleModel (by decide),
   (getTagData_path_unique_in_table "Exif::Main").2 [sampleMake, sampleModel] (by decide)⟩

/-- C10 on two tags named `Make` that differ in their identifier, under table
names that hold `':'`: equal paths, equal table names, equal tag names. -/
theorem getTagData_path_injective_without_colon_witness :
    "Exif::Main" = "Exif::Main" ∧ sampleMake.Name = ({ sampleMake with ID := "0" } : Tag).Name :=
  getTagData_path_injective_without_colon.1 "Exif::Main" "Exif::Main" sampleMake
    { sampleMake with ID := "0" } (by decide) (by decide) (by decide)

/-- C9 as stated fails: with the tool killed after the client's abort, so that
`cmd.Output()` reports `signal: killed`, `handleTags` does write a body, the
text `Error while getting tags` under status 500; the body is not empty. -/
theorem handleTags_killed_tool_body_written :
    ∃ r : Response,
      handleTags (Except.error "signal: killed" : Except String String) sampleUnmarshal []
        = some r ∧
      r.status = 500 ∧ r.body = Body.text "Error while getting tags" ∧
      r.body ≠ Body.empty :=
  ⟨httpError "Error while getting tags" StatusInternalServerError, rfl, rfl, rfl,
    fun h => Body.noConfusion h⟩

/-- C9, as amended, at a tool killed while the two goroutines' scheduling is
the interleaved one: the 500 reply with its text body. -/
theorem handleTags_killed_tool_reply_witness :
    ∃ r : Response,
      handleTags (Except.error "context canceled" : Except String String) sampleUnmarshal
        sampleInterleaved = some r ∧
      r.status = 500 ∧ r.body = Body.text "Error while getting tags" ∧
      r.body ≠ Body.empty :=
  match (handleTags_killed_tool_reply String String (Except.error "context canceled")
      sampleUnmarshal "context canceled" rfl sampleInterleaved).2 with
  | ⟨r, hr, hs, hb, hne, _⟩ => ⟨r, hr, hs, hb, hne⟩

end TagService
